import Mathlib

/-!
Shallow embedding of the data-quality audit and cleaning core
(`modules/data_audit.py` and `modules/cleaning.py`).

Modelling conventions:
* A pandas DataFrame is a `Table`: a header of named, dtyped columns plus a
  list of rows; each cell is `Option Val` (`none` is the null marker NaN/NaT).
* Machine floats are modelled by exact rationals `ℚ`; Python `int(x)` on a
  nonnegative value is `Int.floor`.
* The ambient clock (`datetime.now()`) is passed explicitly as a `Clock`
  (current instant, in whole days since an epoch, plus the current year).
  Timestamps are whole days, so `(now - latest).days` is plain subtraction.
* `pd.to_datetime(errors=coerce)` is modelled as accepting already-temporal
  values and coercing every other value to null; `pd.to_numeric` likewise
  accepts numeric values only.  String-literal date/number parsing is below
  the abstraction level of the claims.
* Python-level failures (KeyError from a missing column, UnboundLocalError
  from the unassigned `details` variable, TypeError from `mean`/`median` on
  a non-numeric column) are `Except.error` values of `PyError`.
* A cleaning call returns a `CleanResult` that also records the value of the
  caller's argument table *after* the call (`callerTable`), so that the
  in-place column assignments `df[column] = ...` performed by the source are
  observable in the pure embedding.
-/

/-- Column kind, decided at table construction (models the pandas dtype). -/
inductive Dtype
  | numeric
  | text
  | temporal
  | cat
deriving DecidableEq, Repr

/-- A non-null cell value. -/
inductive Val
  | num (q : ℚ)
  | str (s : String)
  | dat (d : ℤ)
deriving DecidableEq, Repr

/-- A cell: a value or the null marker. -/
abbrev Cell := Option Val

/-- A table: named, dtyped columns and a list of rows. -/
structure Table where
  header : List (String × Dtype)
  rows : List (List Cell)
deriving DecidableEq, Repr

/-- The ambient clock `datetime.now()`: current day number and current year. -/
structure Clock where
  now : ℤ
  year : ℤ
deriving DecidableEq, Repr

/-- Column status in the completeness table. -/
inductive Status
  | valid
  | warning
  | critical
deriving DecidableEq, Repr

/-- A finding appended to the audit summary (the structured content of the
source's formatted message strings, in the same order). -/
inductive Finding
  | emptyDataset
  | criticalKey (col : String) (pct : ℚ)
  | warningKey (col : String) (pct : ℚ)
  | dupReport (count : ℕ) (rate : ℚ)
  | futureDates (n : ℕ)
  | futureVehicles (n : ℕ)
  | timelinessNote (fresh : Bool) (latest : ℤ) (delta : ℤ)
deriving DecidableEq, Repr

/-- One row of the completeness table built by the audit loop. -/
structure ColProfile where
  name : String
  dtype : Dtype
  missing : ℚ
  uniqueVals : ℕ
  outliers : ℕ
  status : Status
deriving DecidableEq, Repr

/-- The audit report returned by `run_audit` (absent dictionary keys of the
empty-table branch are modelled as `none` / `[]`). -/
structure AuditReport where
  health_score : ℤ
  summary : List Finding
  completeness_table : List ColProfile
  outliers : List (String × ℕ)
  consistency : Option (ℕ × ℚ)
  timeliness : Option (ℤ × ℤ)
deriving DecidableEq, Repr

/-- Python-level exceptions a cleaning call can raise. -/
inductive PyError
  | keyError
  | unboundLocal
  | typeError
deriving DecidableEq, Repr

/-- Structured content of the detail strings returned by cleaning calls
(`none` in the mean/median payload models NaN on an all-null column). -/
inductive Detail
  | noMissing (col : String)
  | droppedMissing (col : String) (n : ℕ)
  | imputedMean (col : String) (v : Option ℚ)
  | imputedMedian (col : String) (v : Option ℚ)
  | imputedMode (col : String) (v : Val)
  | standardized (col : String) (invalid : ℕ)
  | removedDups (n : ℕ)
  | droppedNulls (n : ℕ)
deriving DecidableEq, Repr

/-- Result of a successful cleaning call.  `callerTable` is the value the
caller's argument holds after the call (the source mutates it for the fill
strategies and for date standardization); `result` is the returned table. -/
structure CleanResult where
  callerTable : Table
  result : Table
  detail : Detail
  rowsAffected : ℕ
deriving DecidableEq, Repr

/-- Find a column by name: index of its first occurrence and its dtype. -/
def findColAux (c : String) : List (String × Dtype) → Option (ℕ × Dtype)
  | [] => none
  | h :: hs => if h.1 = c then some (0, h.2) else (findColAux c hs).map (fun p => (p.1 + 1, p.2))

def findCol (t : Table) (c : String) : Option (ℕ × Dtype) :=
  findColAux c t.header

def hasCol (t : Table) (c : String) : Bool :=
  (findCol t c).isSome

def colDtype (t : Table) (c : String) : Option Dtype :=
  (findCol t c).map Prod.snd

/-- The cells of column `c`, in row order (empty if the column is absent). -/
def getColCells (t : Table) (c : String) : List Cell :=
  match findCol t c with
  | some p => t.rows.map (fun r => r.getD p.1 none)
  | none => []

/-- `pd.to_numeric(x, errors=coerce)` on one cell. -/
def parseNum : Cell → Option ℚ
  | some (.num q) => some q
  | _ => none

/-- `pd.to_datetime(x, errors=coerce)` on one cell. -/
def parseDate : Cell → Option ℤ
  | some (.dat d) => some d
  | _ => none

/-- The non-null numeric values of a column (`dropna`). -/
def numsOf (cells : List Cell) : List ℚ :=
  cells.filterMap parseNum

/-- The non-null values of a column (`dropna`). -/
def valsOf (cells : List Cell) : List Val :=
  cells.filterMap id

/-- `isnull().sum()`. -/
def nullCount (cells : List Cell) : ℕ :=
  cells.countP (fun c => c = none)

/-- `nunique()`: distinct non-null values. -/
def nunique (cells : List Cell) : ℕ :=
  (valsOf cells).dedup.length

/-- `df.isnull().mean() * 100` for one column. -/
def missingPct (t : Table) (c : String) : ℚ :=
  (nullCount (getColCells t c) : ℚ) / (t.rows.length : ℚ) * 100

/-- `Series.quantile(q)` with linear interpolation, over an already sorted
list of the non-null values (0 on the empty list, standing for NaN). -/
def interpQuantile (s : List ℚ) (q : ℚ) : ℚ :=
  match s with
  | [] => 0
  | _ =>
    let h : ℚ := q * ((s.length : ℚ) - 1)
    let j : ℕ := (Int.floor h).toNat
    let a := s.getD j 0
    let b := s.getD (j + 1) a
    a + (h - (j : ℚ)) * (b - a)

/-- The column's non-null numeric values, sorted ascending. -/
def sortedNums (t : Table) (c : String) : List ℚ :=
  (numsOf (getColCells t c)).insertionSort (· ≤ ·)

def quartile1 (t : Table) (c : String) : ℚ :=
  interpQuantile (sortedNums t c) (1 / 4)

def quartile3 (t : Table) (c : String) : ℚ :=
  interpQuantile (sortedNums t c) (3 / 4)

def lowerBound (t : Table) (c : String) : ℚ :=
  quartile1 t c - 3 / 2 * (quartile3 t c - quartile1 t c)

def upperBound (t : Table) (c : String) : ℚ :=
  quartile3 t c + 3 / 2 * (quartile3 t c - quartile1 t c)

/-- `detect_outliers_iqr` (data_audit.py lines 6-18): on a non-numeric column
returns `(0, all-false mask)`; on a numeric column marks the values strictly
outside `[Q1 - 1.5*IQR, Q3 + 1.5*IQR]` (nulls compare false, as NaN
comparisons do in pandas). -/
def outlierTest (lb ub : ℚ) (c : Cell) : Bool :=
  match parseNum c with
  | some v => decide (v < lb) || decide (ub < v)
  | none => false

def detect_outliers_iqr (t : Table) (column : String) : ℕ × List Bool :=
  if colDtype t column ≠ some Dtype.numeric then
    (0, List.replicate t.rows.length false)
  else
    let mask := (getColCells t column).map
      (outlierTest (lowerBound t column) (upperBound t column))
    (mask.count true, mask)

/-- Python's builtin `min` on two integers. -/
def pyMin (a b : ℤ) : ℤ := if a ≤ b then a else b

/-- Python's builtin `max` on two integers. -/
def pyMax (a b : ℤ) : ℤ := if a ≤ b then b else a

theorem pyMin_eq_min (a b : ℤ) : pyMin a b = min a b := by
  unfold pyMin; split <;> omega

theorem pyMax_eq_max (a b : ℤ) : pyMax a b = max a b := by
  unfold pyMax; split <;> omega

/-- The key fields of the completeness check (data_audit.py line 48). -/
def keyFields : List String :=
  ["Report Number", "Crash Date/Time", "Vehicle ID", "Person ID"]

/-- The primary-identifier column of the consistency check (line 90). -/
def pkCol : String := "Report Number"

/-- The primary timestamp column (lines 104, 128). -/
def crashCol : String := "Crash Date/Time"

/-- The model-year column (line 114). -/
def vehicleYearCol : String := "Vehicle Year"

/-- Per-column status (lines 64-76): Critical above 10% missing, Warning on
(1,10] and on (0,1], Valid at 0 (both Warning branches kept as in source). -/
def colStatus (pct : ℚ) : Status :=
  if pct > 10 then .critical
  else if pct > 1 then .warning
  else if pct > 0 then .warning
  else .valid

/-- Score deduction one column causes (lines 65-76): only key fields with
missing percentage above 10 (minus 10) or above 1 (minus 5) deduct. -/
def colPenalty (isKey : Bool) (pct : ℚ) : ℤ :=
  if pct > 10 then (if isKey then 10 else 0)
  else if pct > 1 then (if isKey then 5 else 0)
  else 0

/-- Finding one column emits (lines 65-76): only key fields in the Critical
band or the (1,10] Warning band emit one. -/
def colFinding (name : String) (isKey : Bool) (pct : ℚ) : Option Finding :=
  if pct > 10 then (if isKey then some (.criticalKey name pct) else none)
  else if pct > 1 then (if isKey then some (.warningKey name pct) else none)
  else none

/-- Total completeness deduction: the loop subtracts each column's penalty. -/
def completenessPenalty (t : Table) : ℤ :=
  (t.header.map (fun h => colPenalty (keyFields.contains h.1) (missingPct t h.1))).sum

/-- Completeness findings, in column order. -/
def completenessFindings (t : Table) : List Finding :=
  t.header.filterMap (fun h => colFinding h.1 (keyFields.contains h.1) (missingPct t h.1))

/-- One row of the completeness table (lines 52-85). -/
def colProfile (t : Table) (h : String × Dtype) : ColProfile :=
  { name := h.1
    dtype := h.2
    missing := missingPct t h.1
    uniqueVals := nunique (getColCells t h.1)
    outliers := if h.2 = Dtype.numeric then (detect_outliers_iqr t h.1).1 else 0
    status := colStatus (missingPct t h.1) }

/-- Entry of the outliers dictionary (lines 59-62): numeric columns with a
positive outlier count, in column order. -/
def outlierEntry (t : Table) (h : String × Dtype) : Option (String × ℕ) :=
  if h.2 = Dtype.numeric ∧ 0 < (detect_outliers_iqr t h.1).1 then
    some (h.1, (detect_outliers_iqr t h.1).1)
  else none

/-- `df.duplicated(subset=[pk]).sum()`: rows whose key cell already occurred
in an earlier row (pandas treats null as equal to null here). -/
def countDups (seen : List Cell) : List Cell → ℕ
  | [] => 0
  | c :: cs => (if c ∈ seen then 1 else 0) + countDups (c :: seen) cs

def dupCount (t : Table) : ℕ :=
  countDups [] (getColCells t pkCol)

/-- `duplicate_rate = (duplicate_count / n_rows) * 100` (line 93). -/
def dupRate (t : Table) : ℚ :=
  (dupCount t : ℚ) / (t.rows.length : ℚ) * 100

/-- Consistency deduction (lines 98-100): `min(20, int(duplicate_rate * 2))`,
only when duplicates exist (`int` on a nonnegative value is the floor). -/
def consistencyPenalty (t : Table) : ℤ :=
  if hasCol t pkCol then
    (if 0 < dupCount t then pyMin 20 (Int.floor (dupRate t * 2)) else 0)
  else 0

def consistencyFindings (t : Table) : List Finding :=
  if hasCol t pkCol then
    (if 0 < dupCount t then [.dupReport (dupCount t) (dupRate t)] else [])
  else []

/-- The consistency metrics are recorded whenever the key column exists. -/
def consistencyMetrics (t : Table) : Option (ℕ × ℚ) :=
  if hasCol t pkCol then some (dupCount t, dupRate t) else none

/-- Parsed values of the primary timestamp column. -/
def parsedDates (t : Table) : List ℤ :=
  (getColCells t crashCol).filterMap parseDate

/-- `(tmp_dates > datetime.now()).sum()` (line 107). -/
def futureDatesCount (t : Table) (clk : Clock) : ℕ :=
  (parsedDates t).countP (fun d => clk.now < d)

/-- `(vehicle_years > current_year + 1).sum()` (lines 117-118). -/
def futureVehiclesCount (t : Table) (clk : Clock) : ℕ :=
  ((getColCells t vehicleYearCol).filterMap parseNum).countP
    (fun v => ((clk.year : ℚ) + 1) < v)

/-- Accuracy deduction (lines 102-123): 10 for future crash dates, 5 for
future vehicle model years; each check skipped if its column is absent. -/
def accuracyPenalty (t : Table) (clk : Clock) : ℤ :=
  (if hasCol t crashCol ∧ 0 < futureDatesCount t clk then 10 else 0) +
  (if hasCol t vehicleYearCol ∧ 0 < futureVehiclesCount t clk then 5 else 0)

def accuracyFindings (t : Table) (clk : Clock) : List Finding :=
  (if hasCol t crashCol ∧ 0 < futureDatesCount t clk then
    [.futureDates (futureDatesCount t clk)] else []) ++
  (if hasCol t vehicleYearCol ∧ 0 < futureVehiclesCount t clk then
    [.futureVehicles (futureVehiclesCount t clk)] else [])

/-- Timeliness metrics (lines 128-138): latest parsed timestamp and its age,
when the timestamp column exists and has at least one valid parse. -/
def timelinessInfo (t : Table) (clk : Clock) : Option (ℤ × ℤ) :=
  if hasCol t crashCol then
    match parsedDates t with
    | [] => none
    | d :: ds =>
      let latest := ds.foldl pyMax d
      some (latest, clk.now - latest)
  else none

def timelinessFindings (t : Table) (clk : Clock) : List Finding :=
  match timelinessInfo t clk with
  | some p => [.timelinessNote (decide (p.2 < 180)) p.1 p.2]
  | none => []

/-- The report of the empty-table branch (line 44). -/
def emptyReport : AuditReport :=
  { health_score := 0
    summary := [.emptyDataset]
    completeness_table := []
    outliers := []
    consistency := none
    timeliness := none }

/-- `run_audit` (data_audit.py lines 20-141): the empty table returns the
fixed minimal report; otherwise the four checks run in order, the summary
collects their findings in that order, and the score starts at 100, has
each check's penalty subtracted and is clamped to [0, 100] at the end. -/
def run_audit (t : Table) (clk : Clock) : AuditReport :=
  if t.rows.length = 0 then emptyReport
  else
    let raw : ℤ :=
      100 - completenessPenalty t - consistencyPenalty t - accuracyPenalty t clk
    { health_score := pyMax 0 (pyMin 100 raw)
      summary :=
        completenessFindings t ++ consistencyFindings t ++
        accuracyFindings t clk ++ timelinessFindings t clk
      completeness_table := t.header.map (colProfile t)
      outliers := t.header.filterMap (outlierEntry t)
      consistency := consistencyMetrics t
      timeliness := timelinessInfo t clk }

/-- Write new cells into column `c` (the in-place `df[column] = series`
assignment); optionally retags the column's dtype (date standardization
turns the column into a datetime column).  Absent column: unchanged. -/
def setCol (t : Table) (c : String) (newCells : List Cell) (dty : Option Dtype) : Table :=
  match findCol t c with
  | none => t
  | some p =>
    { header :=
        match dty with
        | none => t.header
        | some d => t.header.map (fun h => if h.1 = c then (h.1, d) else h)
      rows := List.zipWith (fun r v => r.set p.1 v) t.rows newCells }

/-- `fillna(v)` on a column's cells. -/
def fillCells (cells : List Cell) (v : Val) : List Cell :=
  cells.map (fun c => match c with | none => some v | some x => some x)

/-- Fill the nulls of column `c` with `v` and write the column back. -/
def fillTable (t : Table) (c : String) (v : Val) : Table :=
  setCol t c (fillCells (getColCells t c) v) none

/-- `fillna` with a possibly-NaN statistic: filling with NaN changes nothing. -/
def fillTableNum (t : Table) (c : String) : Option ℚ → Table
  | none => t
  | some v => fillTable t c (.num v)

/-- `Series.mean()` over the non-null values (`none` is NaN: empty column). -/
def meanOf (nums : List ℚ) : Option ℚ :=
  match nums with
  | [] => none
  | _ => some (nums.sum / (nums.length : ℚ))

/-- `Series.median()`: the 0.5 linear-interpolation quantile. -/
def medianOf (nums : List ℚ) : Option ℚ :=
  match nums with
  | [] => none
  | _ => some (interpQuantile (nums.insertionSort (· ≤ ·)) (1 / 2))

/-- Order on values used by `Series.mode()`'s ascending sort: values of one
kind compare by their own order (a pandas column holds a single kind, so the
cross-kind rank is never exercised by a real column). -/
def valLe : Val → Val → Bool
  | .num a, .num b => a ≤ b
  | .str a, .str b => a ≤ b
  | .dat a, .dat b => a ≤ b
  | .num _, _ => true
  | .str _, .dat _ => true
  | .str _, .num _ => false
  | .dat _, _ => false

/-- Multiplicity of the most frequent value. -/
def maxCount (vs : List Val) : ℕ :=
  (vs.map (fun v => vs.count v)).foldr max 0

/-- Running minimum under `valLe`. -/
def optMin (acc : Option Val) (v : Val) : Option Val :=
  match acc with
  | none => some v
  | some a => some (if valLe v a then v else a)

/-- `Series.mode()[0]`: `mode()` returns the values of maximal multiplicity
sorted ascending, so element 0 is the least of them; on an empty column
the lookup raises (modelled as `none` here, turned into a KeyError). -/
def leastMode (vs : List Val) : Option Val :=
  (vs.dedup.filter (fun v => vs.count v = maxCount vs)).foldl optMin none

/-- Keep the rows whose cells at the given column indices are all non-null
(`dropna(subset=...)`; with all indices, plain `dropna()`). -/
def dropnaOn (t : Table) (idxs : List ℕ) : Table :=
  { t with rows := t.rows.filter (fun r => idxs.all (fun i => r.getD i none ≠ none)) }

/-- `impute_values` (cleaning.py lines 6-40).  A missing column raises
KeyError at `df[column]`.  Zero missing values: early success return, the
strategy never inspected.  `Drop` rebinds the local `df`, leaving the
caller's table untouched; `Mean`/`Median`/`Mode` assign the filled column
into the caller's table (`df[column] = ...`), so `callerTable = result`.
`Mean`/`Median` on a non-numeric column raise TypeError; `Mode` on an
all-null column raises at the `[0]` lookup.  Any other strategy falls
through to the return with `details` unassigned: UnboundLocalError. -/
def impute_values (t : Table) (column : String) (strategy : String) :
    Except PyError CleanResult :=
  match findCol t column with
  | none => .error .keyError
  | some p =>
    let cells := getColCells t column
    let rowsAffected := nullCount cells
    if rowsAffected = 0 then .ok ⟨t, t, .noMissing column, 0⟩
    else if strategy = "Drop" then
      let t2 := dropnaOn t [p.1]
      .ok ⟨t, t2, .droppedMissing column rowsAffected, rowsAffected⟩
    else if strategy = "Mean" then
      if p.2 ≠ Dtype.numeric then .error .typeError
      else
        let v := meanOf (numsOf cells)
        let t2 := fillTableNum t column v
        .ok ⟨t2, t2, .imputedMean column v, rowsAffected⟩
    else if strategy = "Median" then
      if p.2 ≠ Dtype.numeric then .error .typeError
      else
        let v := medianOf (numsOf cells)
        let t2 := fillTableNum t column v
        .ok ⟨t2, t2, .imputedMedian column v, rowsAffected⟩
    else if strategy = "Mode" then
      match leastMode (valsOf cells) with
      | none => .error .keyError
      | some v =>
        let t2 := fillTable t column v
        .ok ⟨t2, t2, .imputedMode column v, rowsAffected⟩
    else .error .unboundLocal

/-- `standardize_dates` (cleaning.py lines 42-66): every cell is re-parsed as
a date (unparseable values coerce to null) and the column — now temporal —
is assigned back into the caller's table.  Rows affected counts the cells
that were non-null before the call; the detail carries the number of newly
null cells. -/
def standardize_dates (t : Table) (column : String) : Except PyError CleanResult :=
  match findCol t column with
  | none => .error .keyError
  | some _ =>
    let cells := getColCells t column
    let initialNulls := nullCount cells
    let newCells := cells.map (fun c => (parseDate c).map Val.dat)
    let t2 := setCol t column newCells (some .temporal)
    let finalNulls := nullCount newCells
    .ok ⟨t2, t2, .standardized column (finalNulls - initialNulls),
      t.rows.length - initialNulls⟩

/-- Keep the first row of each key, dropping later rows whose key was seen. -/
def dedupKeyed (key : List Cell → List Cell) (seen : List (List Cell)) :
    List (List Cell) → List (List Cell)
  | [] => []
  | r :: rs =>
    if key r ∈ seen then dedupKeyed key seen rs
    else r :: dedupKeyed key (key r :: seen) rs

/-- The key of a row under a column subset: its cells at those indices. -/
def rowKey (idxs : List ℕ) (r : List Cell) : List Cell :=
  idxs.map (fun i => r.getD i none)

/-- `remove_duplicates` (cleaning.py lines 68-74): `drop_duplicates(subset)`
keeps the first occurrence of each key tuple in order (whole rows when no
subset is given); a subset column absent from the table raises KeyError.
The local `df` is rebound, so the caller's table is untouched. -/
def remove_duplicates (t : Table) (subset : Option (List String)) :
    Except PyError CleanResult :=
  match subset with
  | some cols =>
    if cols.all (fun c => hasCol t c) then
      let idxs := cols.filterMap (fun c => (findCol t c).map Prod.fst)
      let rows2 := dedupKeyed (rowKey idxs) [] t.rows
      .ok ⟨t, { t with rows := rows2 }, .removedDups (t.rows.length - rows2.length),
        t.rows.length - rows2.length⟩
    else .error .keyError
  | none =>
    let rows2 := dedupKeyed id [] t.rows
    .ok ⟨t, { t with rows := rows2 }, .removedDups (t.rows.length - rows2.length),
      t.rows.length - rows2.length⟩

/-- `drop_missing_values` (cleaning.py lines 76-82): `dropna(subset=columns)`
(all columns when no subset is given) filters out the rows with a null in
the named columns; an absent subset column raises KeyError.  The local `df`
is rebound, so the caller's table is untouched. -/
def drop_missing_values (t : Table) (columns : Option (List String)) :
    Except PyError CleanResult :=
  match columns with
  | some cols =>
    if cols.all (fun c => hasCol t c) then
      let idxs := cols.filterMap (fun c => (findCol t c).map Prod.fst)
      let t2 := dropnaOn t idxs
      .ok ⟨t, t2, .droppedNulls (t.rows.length - t2.rows.length),
        t.rows.length - t2.rows.length⟩
    else .error .keyError
  | none =>
    let t2 := dropnaOn t (List.range t.header.length)
    .ok ⟨t, t2, .droppedNulls (t.rows.length - t2.rows.length),
      t.rows.length - t2.rows.length⟩

/-! ### Concrete tables used by counterexamples and witnesses -/

/-- One temporal key-field column holding a single timestamp. -/
def clockTable : Table :=
  ⟨[("Crash Date/Time", Dtype.temporal)], [[some (.dat 0)]]⟩

/-- A table with no timestamp and no model-year column. -/
def plainTable : Table :=
  ⟨[("Injury Severity", Dtype.text)], [[some (.str "minor")], [none]]⟩

/-- An empty table (a header but zero rows). -/
def emptyTable : Table :=
  ⟨[("Report Number", Dtype.text)], []⟩

/-! ### C1: the health score is always an integer in [0, 100] -/

/-- C1: for every table (and every ambient clock) the health score returned
by `run_audit` lies in [0, 100]: the empty table scores 0 and every other
run clamps the running score `100 - penalties` into the interval. -/
theorem health_score_in_range (t : Table) (clk : Clock) :
    0 ≤ (run_audit t clk).health_score ∧ (run_audit t clk).health_score ≤ 100 := by
  by_cases h : t.rows.length = 0
  · simp [run_audit, h, emptyReport]
  · simp only [run_audit, h, if_false]
    rw [pyMax_eq_max, pyMin_eq_min]
    constructor
    · exact le_max_left 0 _
    · exact max_le (by norm_num) (min_le_left _ _)

/-! ### C8: the empty table yields the fixed minimal report -/

/-- C8: a table with zero rows makes `run_audit` return the fixed minimal
report: score 0, exactly the one "dataset is empty" finding, an empty
per-column profile list, and none of the four checks recorded. -/
theorem run_audit_empty_table (t : Table) (clk : Clock) (h : t.rows.length = 0) :
    run_audit t clk = emptyReport ∧
    (run_audit t clk).health_score = 0 ∧
    (run_audit t clk).summary = [Finding.emptyDataset] ∧
    (run_audit t clk).summary.length = 1 ∧
    (run_audit t clk).completeness_table = [] ∧
    (run_audit t clk).consistency = none ∧
    (run_audit t clk).timeliness = none ∧
    (run_audit t clk).outliers = [] := by
  simp [run_audit, h, emptyReport]

/-- Witness for C8 at the concrete empty table. -/
theorem run_audit_empty_table_witness :
    run_audit emptyTable ⟨20000, 2026⟩ = emptyReport :=
  (run_audit_empty_table emptyTable ⟨20000, 2026⟩ (by decide)).1

/-! ### C7: the audit is not a function of the table alone -/

/-- C7 counterexample: the very same table audited under two different
ambient clocks yields different reports (the timeliness age and marker
depend on `datetime.now()`), so the audit is not a deterministic function
of the table alone. -/
theorem run_audit_not_clock_free :
    run_audit clockTable ⟨10, 2026⟩ ≠ run_audit clockTable ⟨200, 2026⟩ := by
  with_unfolding_all decide

/-- C7 amended: the audit is a deterministic function of the table and the
current instant; the clock enters only through the timestamp and model-year
checks, so on a table having neither a primary-timestamp nor a model-year
column the report does not depend on the clock at all. -/
theorem run_audit_deterministic_without_time_columns (t : Table) (c1 c2 : Clock)
    (hcrash : hasCol t crashCol = false) (hvy : hasCol t vehicleYearCol = false) :
    run_audit t c1 = run_audit t c2 := by
  unfold run_audit
  split
  · rfl
  · simp [accuracyPenalty, accuracyFindings, timelinessInfo, timelinessFindings,
      hcrash, hvy]

/-- Witness for C7's amended statement on a table with neither column. -/
theorem run_audit_deterministic_without_time_columns_witness :
    run_audit plainTable ⟨10, 2026⟩ = run_audit plainTable ⟨20000, 2030⟩ :=
  run_audit_deterministic_without_time_columns plainTable _ _ (by decide) (by decide)

/-! ### C5: the IQR outlier detector -/

/-- Counting `true` in a mapped boolean mask counts the matching elements. -/
theorem count_true_map {α : Type} (f : α → Bool) (l : List α) :
    (l.map f).count true = l.countP f := by
  induction l with
  | nil => rfl
  | cons a l ih =>
    simp only [List.map_cons, List.count_cons, List.countP_cons, ih]
    cases h : f a <;> simp [h]

/-- Counting mask hits over the cells equals counting the parsed numeric
values strictly outside the bounds. -/
theorem countP_outlierTest (lb ub : ℚ) (cells : List Cell) :
    cells.countP (outlierTest lb ub)
      = (cells.filterMap parseNum).countP
          (fun v => decide (v < lb) || decide (ub < v)) := by
  induction cells with
  | nil => rfl
  | cons c cs ih =>
    cases c with
    | none => simpa [List.countP_cons, List.filterMap_cons, outlierTest, parseNum] using ih
    | some v =>
      cases v <;> simp [List.countP_cons, List.filterMap_cons, outlierTest, parseNum, ih]

/-- A present column has one cell per row. -/
theorem getColCells_length (t : Table) (c : String) (p : ℕ × Dtype)
    (h : findCol t c = some p) : (getColCells t c).length = t.rows.length := by
  simp [getColCells, h]

/-- C5: on a numeric column `detect_outliers_iqr` returns a row-aligned mask
marking exactly the cells whose value lies strictly outside
`[Q1 - 1.5*IQR, Q3 + 1.5*IQR]` (quartiles by linear interpolation over the
sorted non-null values) together with the count of marked cells, and on a
non-numeric column it returns `(0, all-false mask of the row length)`;
it is a pure function, so it has no side effects. -/
theorem detect_outliers_iqr_spec (t : Table) (c : String) :
    (colDtype t c = some Dtype.numeric →
      (detect_outliers_iqr t c).2.length = t.rows.length ∧
      (∀ i, i < (getColCells t c).length →
        ((detect_outliers_iqr t c).2.getD i false = true ↔
          ∃ v, (getColCells t c).getD i none = some (.num v) ∧
            (v < lowerBound t c ∨ upperBound t c < v))) ∧
      (detect_outliers_iqr t c).1 =
        (numsOf (getColCells t c)).countP
          (fun v => decide (v < lowerBound t c) || decide (upperBound t c < v))) ∧
    (colDtype t c ≠ some Dtype.numeric →
      detect_outliers_iqr t c = (0, List.replicate t.rows.length false)) := by
  constructor
  · intro hnum
    have hfind : ∃ i, findCol t c = some (i, Dtype.numeric) := by
      unfold colDtype at hnum
      cases hf : findCol t c with
      | none => simp [hf] at hnum
      | some p =>
        obtain ⟨i, d⟩ := p
        rw [hf] at hnum
        simp at hnum
        exact ⟨i, by rw [hnum]⟩
    obtain ⟨i, hf⟩ := hfind
    have hcond : ¬ colDtype t c ≠ some Dtype.numeric := by simp [hnum]
    refine ⟨?_, ?_, ?_⟩
    · unfold detect_outliers_iqr
      rw [if_neg hcond]
      simpa [List.length_map] using getColCells_length t c _ hf
    · intro j hj
      unfold detect_outliers_iqr
      rw [if_neg hcond]
      have hj2 : j < ((getColCells t c).map
          (outlierTest (lowerBound t c) (upperBound t c))).length := by simpa using hj
      rw [List.getD_eq_getElem?_getD, List.getElem?_eq_getElem hj2,
        List.getD_eq_getElem?_getD, List.getElem?_eq_getElem hj]
      simp only [List.getElem_map, Option.getD_some]
      cases hcell : (getColCells t c)[j] with
      | none => simp [outlierTest, parseNum]
      | some v =>
        cases v with
        | num q => simp [outlierTest, parseNum]
        | str s => simp [outlierTest, parseNum]
        | dat d => simp [outlierTest, parseNum]
    · unfold detect_outliers_iqr
      rw [if_neg hcond]
      dsimp only
      rw [count_true_map, countP_outlierTest]
      rfl
  · intro hnn
    unfold detect_outliers_iqr
    rw [if_pos hnn]

/-- A 4-row numeric column with one far-out value. -/
def iqrTable : Table :=
  ⟨[("x", Dtype.numeric)],
   [[some (.num 1)], [some (.num 2)], [some (.num 3)], [some (.num 100)]]⟩

/-- Witness for C5: the numeric branch of the contract at a concrete table. -/
theorem detect_outliers_iqr_spec_witness :
    (detect_outliers_iqr iqrTable "x").1 =
      (numsOf (getColCells iqrTable "x")).countP
        (fun v => decide (v < lowerBound iqrTable "x") ||
          decide (upperBound iqrTable "x" < v)) ∧
    (detect_outliers_iqr iqrTable "x").2.length = iqrTable.rows.length :=
  ⟨((detect_outliers_iqr_spec iqrTable "x").1 rfl).2.2,
   ((detect_outliers_iqr_spec iqrTable "x").1 rfl).1⟩

/-! ### C6: the duplicate-key consistency check -/

/-- A `colFinding` is always a key-field completeness finding. -/
theorem colFinding_cases (n : String) (k : Bool) (p : ℚ) (f : Finding)
    (h : colFinding n k p = some f) :
    f = .criticalKey n p ∨ f = .warningKey n p := by
  unfold colFinding at h
  split at h
  · split at h
    · exact Or.inl (Option.some_inj.mp h).symm
    · simp at h
  · split at h
    · split at h
      · exact Or.inr (Option.some_inj.mp h).symm
      · simp at h
    · simp at h

/-- The summary of a nonempty-table audit, by check, in order. -/
theorem run_audit_summary (t : Table) (clk : Clock) (hne : t.rows.length ≠ 0) :
    (run_audit t clk).summary =
      completenessFindings t ++ consistencyFindings t ++
      accuracyFindings t clk ++ timelinessFindings t clk := by
  unfold run_audit
  rw [if_neg hne]

/-- The health score of a nonempty-table audit is the clamped raw score. -/
theorem run_audit_score (t : Table) (clk : Clock) (hne : t.rows.length ≠ 0) :
    (run_audit t clk).health_score =
      pyMax 0 (pyMin 100
        (100 - completenessPenalty t - consistencyPenalty t - accuracyPenalty t clk)) := by
  unfold run_audit
  rw [if_neg hne]

/-- C6: when the primary-identifier column is present, the audit records the
duplicate count (rows repeating an earlier identifier) and the rate
`duplicates / rows * 100`, subtracts `min(20, floor(rate * 2))` from the
score exactly when duplicates exist, and emits the duplicate finding iff
duplicates exist; 3 duplicates among 50 rows give rate 6 and penalty 12. -/
theorem consistency_check_spec (t : Table) (clk : Clock)
    (hne : t.rows.length ≠ 0) (hpk : hasCol t pkCol = true) :
    (run_audit t clk).consistency = some (dupCount t, dupRate t) ∧
    dupRate t = (dupCount t : ℚ) / (t.rows.length : ℚ) * 100 ∧
    consistencyPenalty t =
      (if 0 < dupCount t then pyMin 20 (Int.floor (dupRate t * 2)) else 0) ∧
    (run_audit t clk).health_score =
      pyMax 0 (pyMin 100
        (100 - completenessPenalty t - consistencyPenalty t - accuracyPenalty t clk)) ∧
    (Finding.dupReport (dupCount t) (dupRate t) ∈ (run_audit t clk).summary ↔
      0 < dupCount t) ∧
    (t.rows.length = 50 → dupCount t = 3 →
      dupRate t = 6 ∧ consistencyPenalty t = 12) := by
  refine ⟨?_, rfl, ?_, run_audit_score t clk hne, ?_, ?_⟩
  · unfold run_audit
    rw [if_neg hne]
    simp [consistencyMetrics, hpk]
  · simp [consistencyPenalty, hpk]
  · rw [run_audit_summary t clk hne]
    constructor
    · intro hmem
      by_contra h0
      have hcons : consistencyFindings t = [] := by
        simp [consistencyFindings, hpk, h0]
      rw [hcons] at hmem
      simp only [List.append_nil, List.mem_append] at hmem
      rcases hmem with (hmem | hmem) | hmem
      · obtain ⟨a, _, ha⟩ := List.mem_filterMap.mp hmem
        rcases colFinding_cases _ _ _ _ ha with h | h <;> simp at h
      · unfold accuracyFindings at hmem
        rw [List.mem_append] at hmem
        rcases hmem with hmem | hmem <;> split at hmem <;> simp at hmem
      · unfold timelinessFindings at hmem
        split at hmem <;> simp at hmem
    · intro h0
      have hcons : consistencyFindings t = [.dupReport (dupCount t) (dupRate t)] := by
        simp [consistencyFindings, hpk, h0]
      rw [hcons]
      simp
  · intro h50 h3
    have hrate : dupRate t = 6 := by
      unfold dupRate
      rw [h50, h3]
      norm_num
    refine ⟨hrate, ?_⟩
    rw [consistencyPenalty, if_pos hpk, if_pos (by rw [h3]; norm_num), hrate]
    norm_num [pyMin]

/-- 50 identifier rows, three of which repeat the first identifier. -/
def dupTable : Table :=
  ⟨[("Report Number", Dtype.text)],
   ((List.range 47).map (fun i => [some (.dat (i : ℤ))])) ++
     List.replicate 3 [some (.dat 0)]⟩

/-- Witness for C6: the 3-in-50 duplicate scenario has rate 6, penalty 12. -/
theorem consistency_check_spec_witness :
    dupRate dupTable = 6 ∧ consistencyPenalty dupTable = 12 :=
  (consistency_check_spec dupTable ⟨0, 2026⟩ (by decide) (by decide)).2.2.2.2.2
    (by decide) (by decide)

/-- 101 rows of a key field, exactly one null: missing percentage 100/101,
inside (0, 1]. -/
def lowMissTable : Table :=
  ⟨[("Vehicle ID", Dtype.text)],
   List.replicate 100 [some (.str "v")] ++ [[none]]⟩

/-! ### C3: key-field completeness penalties -/

/-- C3 counterexample: a key field with missing percentage 100/101, inside
(0, 10], for which the audit subtracts nothing and emits no finding — the
(0, 1] sub-band is status Warning but never scored. -/
theorem low_missing_key_field_unscored :
    keyFields.contains "Vehicle ID" = true ∧
    0 < missingPct lowMissTable "Vehicle ID" ∧
    missingPct lowMissTable "Vehicle ID" ≤ 10 ∧
    colStatus (missingPct lowMissTable "Vehicle ID") = Status.warning ∧
    (run_audit lowMissTable ⟨0, 2026⟩).health_score = 100 ∧
    (run_audit lowMissTable ⟨0, 2026⟩).summary = [] := by
  with_unfolding_all decide

/-- C3 amended: a key field deducts 10 and emits a Critical finding when its
missing percentage exceeds 10, deducts 5 and emits a Warning finding when it
lies in (1, 10]; in (0, 1] the status is Warning but no deduction or finding
is produced. -/
theorem key_field_missing_penalty (t : Table) (clk : Clock)
    (name : String) (dty : Dtype)
    (hmem : (name, dty) ∈ t.header) (hkey : keyFields.contains name = true)
    (hne : t.rows.length ≠ 0) :
    completenessPenalty t =
      (t.header.map (fun h => colPenalty (keyFields.contains h.1) (missingPct t h.1))).sum ∧
    (10 < missingPct t name →
      colPenalty true (missingPct t name) = 10 ∧
      colStatus (missingPct t name) = Status.critical ∧
      Finding.criticalKey name (missingPct t name) ∈ (run_audit t clk).summary) ∧
    (1 < missingPct t name → missingPct t name ≤ 10 →
      colPenalty true (missingPct t name) = 5 ∧
      colStatus (missingPct t name) = Status.warning ∧
      Finding.warningKey name (missingPct t name) ∈ (run_audit t clk).summary) ∧
    (0 < missingPct t name → missingPct t name ≤ 1 →
      colPenalty true (missingPct t name) = 0 ∧
      colFinding name true (missingPct t name) = none ∧
      colStatus (missingPct t name) = Status.warning) := by
  refine ⟨rfl, ?_, ?_, ?_⟩
  · intro h10
    refine ⟨?_, ?_, ?_⟩
    · rw [colPenalty, if_pos h10]
      rfl
    · rw [colStatus, if_pos h10]
    · rw [run_audit_summary t clk hne]
      refine List.mem_append_left _ (List.mem_append_left _ (List.mem_append_left _ ?_))
      refine List.mem_filterMap.mpr ⟨(name, dty), hmem, ?_⟩
      rw [hkey, colFinding, if_pos h10]
      rfl
  · intro h1 h10
    have hn10 : ¬ missingPct t name > 10 := not_lt.mpr h10
    refine ⟨?_, ?_, ?_⟩
    · rw [colPenalty, if_neg hn10, if_pos h1]
      rfl
    · rw [colStatus, if_neg hn10, if_pos h1]
    · rw [run_audit_summary t clk hne]
      refine List.mem_append_left _ (List.mem_append_left _ (List.mem_append_left _ ?_))
      refine List.mem_filterMap.mpr ⟨(name, dty), hmem, ?_⟩
      rw [hkey, colFinding, if_neg hn10, if_pos h1]
      rfl
  · intro h0 h1
    have hn10 : ¬ missingPct t name > 10 := by linarith
    have hn1 : ¬ missingPct t name > 1 := not_lt.mpr h1
    refine ⟨?_, ?_, ?_⟩
    · rw [colPenalty, if_neg hn10, if_neg hn1]
    · rw [colFinding, if_neg hn10, if_neg hn1]
    · rw [colStatus, if_neg hn10, if_neg hn1, if_pos h0]

/-- 20 rows of a key field, one of them null: 5% missing. -/
def warnTable : Table :=
  ⟨[("Vehicle ID", Dtype.text)],
   List.replicate 19 [some (.str "v")] ++ [[none]]⟩

/-- Witness for C3's amended statement: a key field at 5% missing deducts 5
and emits the Warning finding. -/
theorem key_field_missing_penalty_witness :
    colPenalty true (missingPct warnTable "Vehicle ID") = 5 ∧
    Finding.warningKey "Vehicle ID" (missingPct warnTable "Vehicle ID") ∈
      (run_audit warnTable ⟨0, 2026⟩).summary :=
  have h := (key_field_missing_penalty warnTable ⟨0, 2026⟩ "Vehicle ID" Dtype.text
    (by decide) (by decide) (by decide)).2.2.1
    (by with_unfolding_all decide) (by with_unfolding_all decide)
  ⟨h.1, h.2.2⟩

/-! ### C10: the row-removing operations keep surviving rows verbatim -/

/-- Keeping only first-seen keys yields a subsequence of the rows. -/
theorem dedupKeyed_sublist (key : List Cell → List Cell)
    (l : List (List Cell)) : ∀ seen, List.Sublist (dedupKeyed key seen l) l := by
  induction l with
  | nil => intro seen; exact List.Sublist.refl _
  | cons r rs ih =>
    intro seen
    unfold dedupKeyed
    split
    · exact List.Sublist.cons r (ih seen)
    · exact List.Sublist.cons₂ r (ih (key r :: seen))

/-- Shared core fact about the two row-removing operations. -/
theorem row_filter_ops_ok (t : Table) :
    (∀ subset res, remove_duplicates t subset = .ok res →
      res.result.header = t.header ∧
      List.Sublist res.result.rows t.rows ∧
      res.callerTable = t) ∧
    (∀ columns res, drop_missing_values t columns = .ok res →
      res.result.header = t.header ∧
      List.Sublist res.result.rows t.rows ∧
      res.callerTable = t) := by
  constructor
  · intro subset res h
    cases subset with
    | none =>
      unfold remove_duplicates at h
      dsimp only at h
      cases h
      exact ⟨rfl, dedupKeyed_sublist _ _ _, rfl⟩
    | some cols =>
      unfold remove_duplicates at h
      dsimp only at h
      by_cases hall : cols.all (fun c => hasCol t c) = true
      · rw [if_pos hall] at h
        cases h
        exact ⟨rfl, dedupKeyed_sublist _ _ _, rfl⟩
      · rw [if_neg hall] at h
        cases h
  · intro columns res h
    cases columns with
    | none =>
      unfold drop_missing_values at h
      dsimp only at h
      cases h
      exact ⟨rfl, List.filter_sublist _, rfl⟩
    | some cols =>
      unfold drop_missing_values at h
      dsimp only at h
      by_cases hall : cols.all (fun c => hasCol t c) = true
      · rw [if_pos hall] at h
        cases h
        exact ⟨rfl, List.filter_sublist _, rfl⟩
      · rw [if_neg hall] at h
        cases h

/-- C10: on success, `remove_duplicates` and `drop_missing_values` return a
table with the same columns whose rows are a subsequence of the input rows
in order (each surviving row is kept verbatim), and leave the caller's
table untouched. -/
theorem row_filters_preserve_rows (t : Table) :
    (∀ subset res, remove_duplicates t subset = .ok res →
      res.result.header = t.header ∧
      List.Sublist res.result.rows t.rows ∧
      res.callerTable = t) ∧
    (∀ columns res, drop_missing_values t columns = .ok res →
      res.result.header = t.header ∧
      List.Sublist res.result.rows t.rows ∧
      res.callerTable = t) :=
  row_filter_ops_ok t

/-- A 3-row table with one duplicate row. -/
def filterTable : Table :=
  ⟨[("a", Dtype.text)], [[some (.str "x")], [some (.str "x")], [none]]⟩

/-- The result of deduplicating `filterTable` over whole rows. -/
def filterRes : CleanResult :=
  ⟨filterTable, ⟨filterTable.header, [[some (.str "x")], [none]]⟩, .removedDups 1, 1⟩

/-- Witness for C10 at a concrete table. -/
theorem row_filters_preserve_rows_witness :
    filterRes.result.header = filterTable.header ∧
    List.Sublist filterRes.result.rows filterTable.rows :=
  have h := (row_filters_preserve_rows filterTable).1 none filterRes (by with_unfolding_all rfl)
  ⟨h.1, h.2.1⟩

/-! ### C2: which operations mutate the caller's table -/

/-- A numeric column with one value and one null. -/
def mutTable : Table :=
  ⟨[("x", Dtype.numeric)], [[some (.num 1)], [none]]⟩

/-- `mutTable` after filling the null with the column mean 1. -/
def mutFilled : Table :=
  ⟨[("x", Dtype.numeric)], [[some (.num 1)], [some (.num 1)]]⟩

/-- The result of `impute_values mutTable "x" "Mean"`. -/
def mutRes : CleanResult :=
  ⟨mutFilled, mutFilled, .imputedMean "x" (some 1), 1⟩

/-- C2 counterexample: mean imputation writes the filled column back into
the caller's table (`df[column] = df[column].fillna(val)`), so after the
call the caller's table no longer holds its pre-call values. -/
theorem impute_mean_mutates_input :
    impute_values mutTable "x" "Mean" = .ok mutRes ∧
    mutRes.callerTable ≠ mutTable ∧
    mutRes.callerTable = mutRes.result := by
  refine ⟨by with_unfolding_all rfl, by with_unfolding_all decide, rfl⟩

/-- C2 amended: `remove_duplicates`, `drop_missing_values`, imputation with
the `Drop` strategy, and any imputation on a column with no missing values
leave the caller's table unchanged; imputation with a fill strategy
(`Mean`/`Median`/`Mode`) and `standardize_dates` assign the new column into
the caller's table, so the caller's table ends up equal to the returned
table rather than to its pre-call value. -/
theorem cleaning_mutation_behavior (t : Table) :
    (∀ subset res, remove_duplicates t subset = .ok res → res.callerTable = t) ∧
    (∀ columns res, drop_missing_values t columns = .ok res → res.callerTable = t) ∧
    (∀ col res, impute_values t col "Drop" = .ok res → res.callerTable = t) ∧
    (∀ col strat res, nullCount (getColCells t col) = 0 →
      impute_values t col strat = .ok res → res.callerTable = t) ∧
    (∀ col strat res, (strat = "Mean" ∨ strat = "Median" ∨ strat = "Mode") →
      impute_values t col strat = .ok res → res.callerTable = res.result) ∧
    (∀ col res, standardize_dates t col = .ok res → res.callerTable = res.result) := by
  refine ⟨?_, ?_, ?_, ?_, ?_, ?_⟩
  · intro subset res h
    exact ((row_filter_ops_ok t).1 subset res h).2.2
  · intro columns res h
    exact ((row_filter_ops_ok t).2 columns res h).2.2
  · intro col res h
    unfold impute_values at h
    cases hf : findCol t col with
    | none => rw [hf] at h; cases h
    | some p =>
      rw [hf] at h
      dsimp only at h
      by_cases h0 : nullCount (getColCells t col) = 0
      · rw [if_pos h0] at h
        cases h
        rfl
      · rw [if_neg h0, if_pos rfl] at h
        cases h
        rfl
  · intro col strat res h0 h
    unfold impute_values at h
    cases hf : findCol t col with
    | none => rw [hf] at h; cases h
    | some p =>
      rw [hf] at h
      dsimp only at h
      rw [if_pos h0] at h
      cases h
      rfl
  · intro col strat res hstrat h
    unfold impute_values at h
    cases hf : findCol t col with
    | none => rw [hf] at h; cases h
    | some p =>
      rw [hf] at h
      dsimp only at h
      by_cases h0 : nullCount (getColCells t col) = 0
      · rw [if_pos h0] at h
        cases h
        rfl
      · rw [if_neg h0] at h
        have hdrop : ¬ strat = "Drop" := by
          rcases hstrat with h1 | h1 | h1 <;> rw [h1] <;> decide
        rw [if_neg hdrop] at h
        rcases hstrat with h1 | h1 | h1
        · rw [if_pos h1] at h
          split at h
          · cases h
          · cases h
            rfl
        · rw [if_neg (by rw [h1]; decide), if_pos h1] at h
          split at h
          · cases h
          · cases h
            rfl
        · rw [if_neg (by rw [h1]; decide), if_neg (by rw [h1]; decide), if_pos h1] at h
          split at h
          · cases h
          · cases h
            rfl
  · intro col res h
    unfold standardize_dates at h
    cases hf : findCol t col with
    | none => rw [hf] at h; cases h
    | some p =>
      rw [hf] at h
      dsimp only at h
      cases h
      rfl

/-- Witness for C2's amended statement: `Drop` leaves the caller's table
untouched at a concrete input. -/
theorem cleaning_mutation_behavior_witness :
    (⟨mutTable, ⟨[("x", Dtype.numeric)], [[some (.num 1)]]⟩,
      .droppedMissing "x" 1, 1⟩ : CleanResult).callerTable = mutTable :=
  (cleaning_mutation_behavior mutTable).2.2.1 "x" _ (by with_unfolding_all rfl)

/-! ### C4: invalid parameters are not always signaled -/

/-- A numeric column with one value and no nulls. -/
def noNullTable : Table :=
  ⟨[("x", Dtype.numeric)], [[some (.num 1)]]⟩

/-- C4 counterexample: an unknown strategy on a column that happens to have
no missing values is silently ignored — the call returns the normal no-op
success triple instead of signaling an error. -/
theorem invalid_strategy_silently_ignored :
    impute_values noNullTable "x" "Bogus" =
      .ok ⟨noNullTable, noNullTable, .noMissing "x", 0⟩ ∧
    ¬ ("Bogus" = "Mean" ∨ "Bogus" = "Median" ∨ "Bogus" = "Mode" ∨ "Bogus" = "Drop") :=
  ⟨by with_unfolding_all rfl, by decide⟩

/-- C4 amended: a column name absent from the table always fails fast
(KeyError); a strategy outside the enum is signaled (UnboundLocalError)
only when the column has at least one missing value — when it has none the
strategy is never inspected and the no-op success triple is returned. -/
theorem invalid_parameter_behavior (t : Table) (col strat : String) :
    (hasCol t col = false →
      impute_values t col strat = .error .keyError ∧
      standardize_dates t col = .error .keyError) ∧
    (∀ cols, cols.all (fun c => hasCol t c) = false →
      remove_duplicates t (some cols) = .error .keyError ∧
      drop_missing_values t (some cols) = .error .keyError) ∧
    (hasCol t col = true → 0 < nullCount (getColCells t col) →
      strat ≠ "Drop" → strat ≠ "Mean" → strat ≠ "Median" → strat ≠ "Mode" →
      impute_values t col strat = .error .unboundLocal) := by
  refine ⟨?_, ?_, ?_⟩
  · intro habs
    have hf : findCol t col = none := by
      unfold hasCol at habs
      exact Option.not_isSome_iff_eq_none.mp (by rw [habs]; decide)
    constructor
    · unfold impute_values
      rw [hf]
    · unfold standardize_dates
      rw [hf]
  · intro cols hall
    have hnall : ¬ cols.all (fun c => hasCol t c) = true := by
      rw [hall]; decide
    constructor
    · unfold remove_duplicates
      dsimp only
      rw [if_neg hnall]
    · unfold drop_missing_values
      dsimp only
      rw [if_neg hnall]
  · intro hpres hmiss hd hme hmd hmo
    obtain ⟨p, hf⟩ := Option.isSome_iff_exists.mp (by rw [hasCol] at hpres; exact hpres)
    unfold impute_values
    rw [hf]
    dsimp only
    rw [if_neg (Nat.pos_iff_ne_zero.mp hmiss), if_neg hd, if_neg hme, if_neg hmd,
      if_neg hmo]

/-- Witness for C4's amended statement: an unknown strategy on a column with
missing values raises, and a missing column raises. -/
theorem invalid_parameter_behavior_witness :
    impute_values mutTable "x" "Bogus" = .error .unboundLocal ∧
    impute_values mutTable "y" "Mean" = .error .keyError :=
  ⟨(invalid_parameter_behavior mutTable "x" "Bogus").2.2 (by decide)
      (by with_unfolding_all decide) (by decide) (by decide) (by decide) (by decide),
   ((invalid_parameter_behavior mutTable "y" "Mean").1 (by decide)).1⟩

/-! ### C9: mode imputation and its tie-breaking -/

theorem valLe_refl (a : Val) : valLe a a = true := by
  cases a <;> simp [valLe]

theorem valLe_total (a b : Val) : valLe a b = true ∨ valLe b a = true := by
  cases a <;> cases b <;> simp [valLe] <;> exact le_total _ _

theorem valLe_trans (a b c : Val) (h1 : valLe a b = true) (h2 : valLe b c = true) :
    valLe a c = true := by
  cases a <;> cases b <;> cases c <;>
    simp only [valLe, decide_eq_true_eq, Bool.false_eq_true] at h1 h2 ⊢ <;>
    try exact le_trans h1 h2

/-- Folding `optMin` from a seed returns the least element seen. -/
theorem foldl_optMin_char (l : List Val) : ∀ a : Val,
    ∃ m, l.foldl optMin (some a) = some m ∧ (m = a ∨ m ∈ l) ∧
      valLe m a = true ∧ ∀ x ∈ l, valLe m x = true := by
  induction l with
  | nil =>
    intro a
    exact ⟨a, rfl, Or.inl rfl, valLe_refl a, by simp⟩
  | cons v vs ih =>
    intro a
    cases hva : valLe v a with
    | true =>
      obtain ⟨m, hm, hmem, hma, hall⟩ := ih v
      have hstep : optMin (some a) v = some v := by
        simp [optMin, hva]
      refine ⟨m, ?_, ?_, ?_, ?_⟩
      · rw [List.foldl_cons, hstep]
        exact hm
      · rcases hmem with h | h
        · exact Or.inr (h ▸ List.mem_cons_self v vs)
        · exact Or.inr (List.mem_cons_of_mem v h)
      · exact valLe_trans _ _ _ hma hva
      · intro x hx
        rcases List.mem_cons.mp hx with h | h
        · exact h ▸ hma
        · exact hall x h
    | false =>
      obtain ⟨m, hm, hmem, hma, hall⟩ := ih a
      have hav : valLe a v = true := by
        rcases valLe_total a v with h | h
        · exact h
        · rw [h] at hva
          cases hva
      have hstep : optMin (some a) v = some a := by
        simp [optMin, hva]
      refine ⟨m, ?_, ?_, hma, ?_⟩
      · rw [List.foldl_cons, hstep]
        exact hm
      · rcases hmem with h | h
        · exact Or.inl h
        · exact Or.inr (List.mem_cons_of_mem v h)
      · intro x hx
        rcases List.mem_cons.mp hx with h | h
        · exact h ▸ valLe_trans _ _ _ hma hav
        · exact hall x h

/-- Every element's multiplicity is at most `maxCount`. -/
theorem count_le_maxCount (vs : List Val) (w : Val) (hw : w ∈ vs) :
    vs.count w ≤ maxCount vs := by
  have hmem : vs.count w ∈ vs.map (fun v => vs.count v) :=
    List.mem_map_of_mem _ hw
  unfold maxCount
  generalize vs.map (fun v => vs.count v) = l at hmem
  induction l with
  | nil => cases hmem
  | cons b l ih =>
    rcases List.mem_cons.mp hmem with h | h
    · rw [h]
      exact le_max_left _ _
    · exact le_trans (ih h) (le_max_right _ _)

/-- What `leastMode` returns: a most frequent value of the list, least (in
`valLe` order) among the values tied for the maximal multiplicity. -/
theorem leastMode_char (vs : List Val) (m : Val) (h : leastMode vs = some m) :
    m ∈ vs ∧ vs.count m = maxCount vs ∧
    (∀ w ∈ vs, vs.count w ≤ vs.count m) ∧
    (∀ w ∈ vs, vs.count w = vs.count m → valLe m w = true) := by
  unfold leastMode at h
  cases hc : vs.dedup.filter (fun v => vs.count v = maxCount vs) with
  | nil =>
    rw [hc] at h
    cases h
  | cons c cs =>
    rw [hc, List.foldl_cons] at h
    have hstep : optMin none c = some c := rfl
    rw [hstep] at h
    obtain ⟨m2, hm2, hmem, hma, hall⟩ := foldl_optMin_char cs c
    rw [hm2] at h
    have hm : m2 = m := Option.some_inj.mp h
    subst hm
    have hcand : m2 ∈ vs.dedup.filter (fun v => vs.count v = maxCount vs) := by
      rw [hc]
      rcases hmem with h | h
      · exact h ▸ List.mem_cons_self c cs
      · exact List.mem_cons_of_mem c h
    have hfilter := List.mem_filter.mp hcand
    have hmax : vs.count m2 = maxCount vs := by
      have := hfilter.2
      simpa using this
    refine ⟨List.mem_dedup.mp hfilter.1, hmax, ?_, ?_⟩
    · intro w hw
      rw [hmax]
      exact count_le_maxCount vs w hw
    · intro w hw hcw
      have hwcand : w ∈ vs.dedup.filter (fun v => vs.count v = maxCount vs) := by
        refine List.mem_filter.mpr ⟨List.mem_dedup.mpr hw, ?_⟩
        simp [hcw, hmax]
      rw [hc] at hwcand
      rcases List.mem_cons.mp hwcand with h | h
      · exact h ▸ hma
      · exact hall w h

/-- Filling leaves no nulls behind. -/
theorem nullCount_fillCells (cells : List Cell) (v : Val) :
    nullCount (fillCells cells v) = 0 := by
  induction cells with
  | nil => rfl
  | cons c cs ih =>
    cases c <;> simpa [fillCells, nullCount, List.countP_cons] using ih

/-- Filling only touches the null cells. -/
theorem fillCells_getD (cells : List Cell) (v : Val) (i : ℕ)
    (h : i < cells.length) :
    ((cells.getD i none = none →
        (fillCells cells v).getD i none = some v) ∧
      (cells.getD i none ≠ none →
        (fillCells cells v).getD i none = cells.getD i none)) := by
  have h2 : i < (fillCells cells v).length := by
    simpa [fillCells] using h
  rw [List.getD_eq_getElem?_getD, List.getElem?_eq_getElem h,
    List.getD_eq_getElem?_getD, List.getElem?_eq_getElem h2]
  unfold fillCells
  simp only [List.getElem_map, Option.getD_some]
  cases hcell : cells[i] with
  | none => simp
  | some x => simp

/-- C9 amended: on a column with missing values, `Mode` imputation fills
every null with a most frequent non-null value, the tie being broken by
taking the least tied value in ascending order (`Series.mode()` sorts), and
also writes the filled column into the caller's table. -/
theorem impute_mode_spec (t : Table) (col : String) (res : CleanResult)
    (h : impute_values t col "Mode" = .ok res)
    (hmiss : 0 < nullCount (getColCells t col)) :
    ∃ v, leastMode (valsOf (getColCells t col)) = some v ∧
      v ∈ valsOf (getColCells t col) ∧
      (∀ w ∈ valsOf (getColCells t col),
        (valsOf (getColCells t col)).count w ≤ (valsOf (getColCells t col)).count v) ∧
      (∀ w ∈ valsOf (getColCells t col),
        (valsOf (getColCells t col)).count w = (valsOf (getColCells t col)).count v →
          valLe v w = true) ∧
      res.result = fillTable t col v ∧
      res.callerTable = res.result ∧
      res.rowsAffected = nullCount (getColCells t col) ∧
      nullCount (fillCells (getColCells t col) v) = 0 ∧
      (∀ i, i < (getColCells t col).length →
        ((getColCells t col).getD i none = none →
          (fillCells (getColCells t col) v).getD i none = some v) ∧
        ((getColCells t col).getD i none ≠ none →
          (fillCells (getColCells t col) v).getD i none =
            (getColCells t col).getD i none)) := by
  unfold impute_values at h
  cases hf : findCol t col with
  | none =>
    rw [hf] at h
    cases h
  | some p =>
    rw [hf] at h
    dsimp only at h
    rw [if_neg (Nat.pos_iff_ne_zero.mp hmiss), if_neg (by decide),
      if_neg (by decide), if_neg (by decide), if_pos rfl] at h
    cases hlm : leastMode (valsOf (getColCells t col)) with
    | none =>
      rw [hlm] at h
      cases h
    | some v =>
      rw [hlm] at h
      cases h
      obtain ⟨hmem, _, hle, htie⟩ := leastMode_char _ _ hlm
      exact ⟨v, rfl, hmem, hle, htie, rfl, rfl, rfl, nullCount_fillCells _ _,
        fun i hi => fillCells_getD _ _ i hi⟩

/-- A numeric column where 5 and 2 tie for most frequent; 5 appears first. -/
def modeTable : Table :=
  ⟨[("x", Dtype.numeric)],
   [[some (.num 5)], [some (.num 2)], [some (.num 5)], [some (.num 2)], [none]]⟩

/-- `modeTable` with its null filled by 2 (the least tied mode). -/
def modeFilled : Table :=
  ⟨[("x", Dtype.numeric)],
   [[some (.num 5)], [some (.num 2)], [some (.num 5)], [some (.num 2)], [some (.num 2)]]⟩

/-- The result of `impute_values modeTable "x" "Mode"`. -/
def modeRes : CleanResult :=
  ⟨modeFilled, modeFilled, .imputedMode "x" (.num 2), 1⟩

/-- Modelled from the spec: "Mode uses the first-encountered most-frequent
value on ties" — the first value in row order whose multiplicity is
maximal. -/
def firstEncounteredMode (vs : List Val) : Option Val :=
  vs.find? (fun v => vs.count v = maxCount vs)

/-- C9 counterexample: with 5 and 2 tied (two occurrences each, 5 first in
row order), the claim predicts the null is filled with 5, but the code
(`mode()[0]`, the least tied mode) fills it with 2. -/
theorem mode_tie_not_first_encountered :
    firstEncounteredMode (valsOf (getColCells modeTable "x")) = some (.num 5) ∧
    impute_values modeTable "x" "Mode" = .ok modeRes ∧
    getColCells modeRes.result "x" =
      [some (.num 5), some (.num 2), some (.num 5), some (.num 2), some (.num 2)] ∧
    (Val.num 2 : Val) ≠ (Val.num 5 : Val) := by
  refine ⟨by with_unfolding_all rfl, by with_unfolding_all rfl,
    by with_unfolding_all rfl, by with_unfolding_all decide⟩

/-- Witness for C9's amended statement at the tied-mode table. -/
theorem impute_mode_spec_witness :
    modeRes.result = fillTable modeTable "x" (Val.num 2) ∧
    nullCount (fillCells (getColCells modeTable "x") (Val.num 2)) = 0 := by
  obtain ⟨v, hv, _, _, _, hres, _, _, hnc, _⟩ :=
    impute_mode_spec modeTable "x" modeRes (by with_unfolding_all rfl)
      (by with_unfolding_all decide)
  have hv2 : leastMode (valsOf (getColCells modeTable "x")) = some (Val.num 2) := by
    with_unfolding_all rfl
  rw [hv] at hv2
  have he : v = Val.num 2 := Option.some_inj.mp hv2
  exact ⟨he ▸ hres, he ▸ hnc⟩
